import Mathlib

/-!
Verification of the quota-aware multi-credential dispatcher of the
YouTube-Data-Fetcher-API repository (src/redis_manager.py, src/youtube_api.py,
src/config.py), against its natural-language specification.

The embedding models the redis-backed ("durable store") path of
`RedisManager`.  A redis key is modelled as a `Cell`: absent, holding an
integer (every numeric value this program writes is `str(int)`, and Python's
`int(str(n))` round-trips exactly, so numeric writes are stored as the
integer itself), holding an arbitrary string (date strings, or externally
corrupted data), or unreachable (every access raises `redis.RedisError`,
which the `_safe_redis_*` wrappers turn into a default).  Wall-clock inputs
(`_get_current_pt_date`) and the sampled rotation thresholds
(`random.uniform` / `random.randint` in `increment_usage`) are explicit
parameters; the threshold comparison is carried out in `ℚ` in place of IEEE
floats, which is exact for the integer operands involved here.  The upstream
HTTP interaction of `make_youtube_api_request` is modelled by an oracle
`Nat → UpResp` giving the outcome of each successive network call, at the
level of the already-extracted error reason string.
-/

namespace YTQ

/-- Quota limit per API key, from src/config.py (`QUOTA_LIMIT = 10000`). -/
def QUOTA_LIMIT : Int := 10000

/-- Maximum number of retries across all keys, from src/youtube_api.py
(`max_retries = 3`). -/
def MAX_RETRIES : Nat := 3

/-- Accumulates decimal digits; `none` as soon as a non-digit appears.
Helper for `pyIntOfString`. -/
def parseDigitsAux : List Char → Nat → Option Nat
  | [], acc => some acc
  | c :: cs, acc =>
    if c.isDigit then parseDigitsAux cs (acc * 10 + (c.toNat - 48)) else none

/-- Parses a non-empty all-digit character list to a natural number. -/
def parseDigits : List Char → Option Nat
  | [] => none
  | c :: cs => parseDigitsAux (c :: cs) 0

/-- Drops leading whitespace characters. -/
def dropLeadingWs : List Char → List Char
  | [] => []
  | c :: cs => if c.isWhitespace then dropLeadingWs cs else c :: cs

/-- Drops surrounding whitespace characters. -/
def stripWs (cs : List Char) : List Char :=
  (dropLeadingWs (dropLeadingWs cs).reverse).reverse

/-- Models Python's `int(s)` on a string: optional surrounding whitespace,
an optional sign, then decimal digits; `none` models `ValueError`. -/
def pyIntOfString (s : String) : Option Int :=
  match stripWs s.toList with
  | '-' :: rest => (parseDigits rest).map (fun n => -(n : Int))
  | '+' :: rest => (parseDigits rest).map (fun n => (n : Int))
  | cs => (parseDigits cs).map (fun n => (n : Int))

/-- Character-list version of "pat occurs at the start". -/
def charsStartWith : List Char → List Char → Bool
  | [], _ => true
  | _ :: _, [] => false
  | a :: as, b :: bs => a = b && charsStartWith as bs

/-- Character-list version of "pat occurs somewhere". -/
def charsContain (pat : List Char) : List Char → Bool
  | [] => pat.isEmpty
  | b :: bs => charsStartWith pat (b :: bs) || charsContain pat bs

/-- Models Python's substring test `pat in s`. -/
def strHas (s pat : String) : Bool := charsContain pat.toList s.toList

/-- One redis key's state, as seen through the `_safe_redis_*` wrappers of
src/redis_manager.py lines 73-111. -/
inductive Cell where
  | absent
  | intVal (n : Int)
  | strVal (s : String)
  | fail
  deriving DecidableEq

/-- The redis-backed state of `RedisManager` relevant to the ledger: the
stored active-index key and, per credential index, the `quota:{i}`,
`requests:{i}` and `last_reset_date:{i}` keys.  `hasClient` models
`self.redis_client is not None`. -/
structure St where
  hasClient : Bool
  currentKeyIndex : Cell
  quota : Int → Cell
  requests : Int → Cell
  lastReset : Int → Cell

/-- Pointwise update of a keyed family of cells. -/
def updCell (f : Int → Cell) (i : Int) (c : Cell) : Int → Cell :=
  fun j => if j = i then c else f j

/-- Models `int(str(self._safe_redis_get(key, "0"))) if value else 0`, the
read idiom used for every numeric key: absent keys, unreachable keys and a
missing client all yield the default "0"; `none` models the `ValueError`
raised by `int` on a non-numeric stored string. -/
def readIntD0 (hasClient : Bool) (c : Cell) : Option Int :=
  if hasClient then
    match c with
    | Cell.fail => some 0
    | Cell.absent => some 0
    | Cell.intVal n => some n
    | Cell.strVal s => if s = "" then some 0 else pyIntOfString s
  else some 0

/-- Models `self._safe_redis_get(key)` (default `None`) decoded to a string,
used for the `last_reset_date:{i}` keys. -/
def readStrOpt (hasClient : Bool) (c : Cell) : Option String :=
  if hasClient then
    match c with
    | Cell.fail => none
    | Cell.absent => none
    | Cell.intVal n => some (toString n)
    | Cell.strVal s => some s
  else none

/-- Models `self._safe_redis_set(key, n)` for an integer value: a write to an
unreachable key (or with no client) silently fails. -/
def setIntCell (hasClient : Bool) (c : Cell) (n : Int) : Cell :=
  if hasClient then
    match c with
    | Cell.fail => Cell.fail
    | _ => Cell.intVal n
  else c

/-- Models `self._safe_redis_set(key, s)` for a string value. -/
def setStrCell (hasClient : Bool) (c : Cell) (s : String) : Cell :=
  if hasClient then
    match c with
    | Cell.fail => Cell.fail
    | _ => Cell.strVal s
  else c

/-- Models `self._safe_redis_incrby(key, amt)`: redis INCRBY treats an absent
key as 0, errors on a non-integer stored value (leaving it unchanged, the
wrapper returning 0), and the wrapper returns 0 with no effect when the key
is unreachable or there is no client. -/
def incrbyCell (hasClient : Bool) (c : Cell) (amt : Int) : Cell × Int :=
  if hasClient then
    match c with
    | Cell.fail => (Cell.fail, 0)
    | Cell.absent => (Cell.intVal amt, amt)
    | Cell.intVal n => (Cell.intVal (n + amt), n + amt)
    | Cell.strVal s =>
      match pyIntOfString s with
      | some n => (Cell.intVal (n + amt), n + amt)
      | none => (Cell.strVal s, 0)
  else (c, 0)

/-- The integer a cell holds for INCRBY purposes (absent counts as 0);
`none` when incrementing it would fail. -/
def cellInt : Cell → Option Int
  | Cell.absent => some 0
  | Cell.intVal n => some n
  | Cell.strVal s => pyIntOfString s
  | Cell.fail => none

/-- Models `RedisManager._is_new_pt_day` (src/redis_manager.py lines
177-187): a missing, empty or "unknown" stored date counts as a new day,
otherwise the stored date is compared with today's date string. -/
def is_new_pt_day (today : String) (lastResetDateStr : Option String) : Bool :=
  match lastResetDateStr with
  | none => true
  | some s => if s = "" ∨ s = "unknown" then true else decide (s ≠ today)

/-- The argument `_reset_quota_if_needed` passes to `_is_new_pt_day`:
`str(last_reset_date) if last_reset_date else None`, where the stored date
was read with default `None` (an empty string is falsy in Python). -/
def resetArg (st : St) (i : Int) : Option String :=
  match readStrOpt st.hasClient (st.lastReset i) with
  | none => none
  | some s => if s = "" then none else some s

/-- Models `RedisManager._reset_quota_if_needed` (src/redis_manager.py lines
189-203): when the stored last-reset date differs from today (or is
absent/unknown), zero `quota:{i}` and `requests:{i}` and write today as the
new `last_reset_date:{i}`. -/
def reset_quota_if_needed (today : String) (st : St) (i : Int) : St :=
  if is_new_pt_day today (resetArg st i) then
    { st with
      quota := updCell st.quota i (setIntCell st.hasClient (st.quota i) 0),
      requests := updCell st.requests i (setIntCell st.hasClient (st.requests i) 0),
      lastReset := updCell st.lastReset i (setStrCell st.hasClient (st.lastReset i) today) }
  else st

/-- Models Python list indexing `xs[i]` including negative indices;
`none` models `IndexError`. -/
def pyListGet (xs : List String) (i : Int) : Option String :=
  if 0 ≤ i then xs.get? i.toNat
  else if 0 ≤ i + xs.length then xs.get? (i + xs.length).toNat
  else none

/-- Models `RedisManager.get_current_api_key` on the redis-backed path
(src/redis_manager.py lines 143-165): read the stored index (default "0"),
repair it to 0 when it is `>= len(API_KEYS)`, run the lazy daily-reset check
for it, and return `API_KEYS[index], index`; a `ValueError` from `int` or an
`IndexError` from the list access falls back to `(API_KEYS[0], 0)`. -/
def get_current_api_key (keys : List String) (today : String) (st : St) :
    St × String × Int :=
  match readIntD0 st.hasClient st.currentKeyIndex with
  | none => (st, keys.getD 0 "", 0)
  | some idx0 =>
    let p : Int × St :=
      if idx0 ≥ (keys.length : Int) then
        (0, { st with currentKeyIndex := setIntCell st.hasClient st.currentKeyIndex 0 })
      else (idx0, st)
    let st2 := reset_quota_if_needed today p.2 p.1
    match pyListGet keys p.1 with
    | some k => (st2, k, p.1)
    | none => (st2, keys.getD 0 "", 0)

/-- The circular scan of `RedisManager.rotate_key` (src/redis_manager.py
lines 297-309): starting at `next`, try up to `rem` candidates, stopping at
the first whose quota reads below `QUOTA_LIMIT`; `none` models the
`ValueError` of `int` on a non-numeric stored quota (caught by the
enclosing handler). -/
def rotateScan (st : St) (n : Int) : Int → Nat → Option Int
  | next, 0 => some next
  | next, Nat.succ rem =>
    match readIntD0 st.hasClient (st.quota next) with
    | none => none
    | some q =>
      if q < QUOTA_LIMIT then some next
      else rotateScan st n ((next + 1) % n) rem

/-- Models `RedisManager.rotate_key` on the redis-backed path
(src/redis_manager.py lines 264-321): read the current index, scan forward
circularly from `(current+1) % N` through `N` candidates for one with
remaining quota, store the resulting index and return it; any exception is
caught and 0 is returned with the stored index unchanged. -/
def rotate_key (keys : List String) (st : St) : St × Int :=
  match readIntD0 st.hasClient st.currentKeyIndex with
  | none => (st, 0)
  | some cur =>
    match rotateScan st (keys.length : Int) ((cur + 1) % (keys.length : Int)) keys.length with
    | none => (st, 0)
    | some nxt =>
      ({ st with currentKeyIndex := setIntCell st.hasClient st.currentKeyIndex nxt }, nxt)

/-- Models `RedisManager.mark_key_quota_exceeded` on the redis-backed path
(src/redis_manager.py lines 323-342): force-set `quota:{i}` to `QUOTA_LIMIT`
and rotate to the next key. -/
def mark_key_quota_exceeded (keys : List String) (st : St) (i : Int) : St × Int :=
  let st1 := { st with quota := updCell st.quota i (setIntCell st.hasClient (st.quota i) QUOTA_LIMIT) }
  rotate_key keys st1

/-- The per-index loop of `RedisManager.are_all_keys_exhausted`
(src/redis_manager.py lines 350-357), from index `i` over `rem` further
indices: the first quota reading below `QUOTA_LIMIT` yields `False`;
a `ValueError` on a non-numeric stored quota reaches the enclosing handler,
which also yields `False`. -/
def aekGo (st : St) : Nat → Nat → Bool
  | _, 0 => true
  | i, Nat.succ rem =>
    match readIntD0 st.hasClient (st.quota (i : Int)) with
    | none => false
    | some q => if q < QUOTA_LIMIT then false else aekGo st (i + 1) rem

/-- Models `RedisManager.are_all_keys_exhausted` on the redis-backed path
(src/redis_manager.py lines 344-360). -/
def are_all_keys_exhausted (keys : List String) (st : St) : Bool :=
  aekGo st 0 keys.length

/-- Models `RedisManager.increment_usage` on the redis-backed path
(src/redis_manager.py lines 205-262): run the lazy reset check, INCRBY the
quota by `cost` and the request count by 1, rotate when the sampled
thresholds are hit, and return the post-increment quota.  `qThr` and `rThr`
are the values sampled by `random.uniform(0.75, 0.85)` and
`random.randint(800, 1200)`; store failures surface as the 0 returned by
`_safe_redis_incrby`. -/
def increment_usage (keys : List String) (today : String) (qThr : ℚ) (rThr : Int)
    (st : St) (i : Int) (cost : Int) : St × Int :=
  let st1 := reset_quota_if_needed today st i
  let pq := incrbyCell st1.hasClient (st1.quota i) cost
  let st2 := { st1 with quota := updCell st1.quota i pq.1 }
  let pr := incrbyCell st2.hasClient (st2.requests i) 1
  let st3 := { st2 with requests := updCell st2.requests i pr.1 }
  if (pq.2 : ℚ) ≥ (QUOTA_LIMIT : ℚ) * qThr ∨ pr.2 ≥ rThr then
    ((rotate_key keys st3).1, pq.2)
  else (st3, pq.2)

/-- Models `get_endpoint_quota_cost` (src/youtube_api.py lines 6-22). -/
def get_endpoint_quota_cost (url : String) : Int :=
  if strHas url "search" then 100
  else if strHas url "videos" then 1
  else if strHas url "channels" then 1
  else if strHas url "playlistItems" then 1
  else if strHas url "playlists" then 1
  else 1

/-- One upstream outcome of a network call issued by the dispatcher, at the
level of the classification `make_youtube_api_request` performs: HTTP 200,
HTTP 403 with the extracted error reason, another HTTP status with its body,
or a `requests` transport exception. -/
inductive UpResp where
  | ok
  | forbidden (reason : String)
  | httpErr (status : Int) (body : String)
  | netErr
  deriving DecidableEq

/-- The terminal outcome of `make_youtube_api_request`; each failure
constructor corresponds to one distinct `raise Exception(...)` message of
src/youtube_api.py. -/
inductive ApiResult where
  | success
  | allExhausted
  | noValidKey
  | forbiddenOther (reason : String)
  | upstreamFailure (status : Int) (body : String)
  | networkFailure
  | retriesExhausted
  deriving DecidableEq

/-- The retry loop of `make_youtube_api_request` (src/youtube_api.py lines
38-111), with `fuel = max_retries - retry_count` remaining iterations and
`calls` network requests issued so far.  `resp k` is the upstream outcome of
the k-th network call.  Returns the terminal outcome, the final ledger
state, and the total number of network calls issued. -/
def dispatchGo (keys : List String) (today url : String) (qThr : ℚ) (rThr : Int)
    (resp : Nat → UpResp) : Nat → St → Nat → ApiResult × St × Nat
  | 0, st, calls => (ApiResult.retriesExhausted, st, calls)
  | Nat.succ fuel, st, calls =>
    let r := get_current_api_key keys today st
    if r.2.1 = "" then (ApiResult.noValidKey, r.1, calls)
    else
      match resp calls with
      | UpResp.ok =>
        let p := increment_usage keys today qThr rThr r.1 r.2.2 (get_endpoint_quota_cost url)
        (ApiResult.success, p.1, calls + 1)
      | UpResp.forbidden reason =>
        if strHas reason "quotaExceeded" || strHas reason "dailyLimitExceeded" then
          let p := mark_key_quota_exceeded keys r.1 r.2.2
          if are_all_keys_exhausted keys p.1 then (ApiResult.allExhausted, p.1, calls + 1)
          else dispatchGo keys today url qThr rThr resp fuel p.1 (calls + 1)
        else if strHas reason "keyInvalid" || strHas reason "accessNotConfigured" then
          let p := mark_key_quota_exceeded keys r.1 r.2.2
          dispatchGo keys today url qThr rThr resp fuel p.1 (calls + 1)
        else (ApiResult.forbiddenOther reason, r.1, calls + 1)
      | UpResp.httpErr status body =>
        if fuel = 0 then (ApiResult.upstreamFailure status body, r.1, calls + 1)
        else dispatchGo keys today url qThr rThr resp fuel r.1 (calls + 1)
      | UpResp.netErr =>
        if fuel = 0 then (ApiResult.networkFailure, r.1, calls + 1)
        else dispatchGo keys today url qThr rThr resp fuel r.1 (calls + 1)

/-- Models `make_youtube_api_request` (src/youtube_api.py lines 24-111):
when every key is already exhausted the call fails immediately (the
status-summary logging only performs safe reads), otherwise the bounded
retry loop runs with the full budget. -/
def make_youtube_api_request (keys : List String) (today url : String)
    (qThr : ℚ) (rThr : Int) (resp : Nat → UpResp) (st : St) : ApiResult × St × Nat :=
  if are_all_keys_exhausted keys st then (ApiResult.allExhausted, st, 0)
  else dispatchGo keys today url qThr rThr resp MAX_RETRIES st 0

/-! Helper lemmas about the store primitives and the ledger operations. -/

/-- A lazy reset never changes whether the client is present. -/
lemma reset_hasClient (today : String) (st : St) (i : Int) :
    (reset_quota_if_needed today st i).hasClient = st.hasClient := by
  unfold reset_quota_if_needed
  split <;> rfl

/-- Rotation touches only the stored active index. -/
lemma rotate_key_fields (keys : List String) (st : St) :
    (rotate_key keys st).1.quota = st.quota ∧
    (rotate_key keys st).1.requests = st.requests ∧
    (rotate_key keys st).1.lastReset = st.lastReset ∧
    (rotate_key keys st).1.hasClient = st.hasClient := by
  unfold rotate_key
  split
  · exact ⟨rfl, rfl, rfl, rfl⟩
  · split
    · exact ⟨rfl, rfl, rfl, rfl⟩
    · exact ⟨rfl, rfl, rfl, rfl⟩

/-- An INCRBY on a cell holding `n` (with a live client) succeeds. -/
lemma incrbyCell_of_cellInt {c : Cell} {n : Int} (h : cellInt c = some n) (amt : Int) :
    incrbyCell true c amt = (Cell.intVal (n + amt), n + amt) := by
  cases c with
  | absent => simp [cellInt] at h; simp [incrbyCell, ← h]
  | intVal m => simp [cellInt] at h; simp [incrbyCell, h]
  | strVal s => simp [cellInt] at h; simp [incrbyCell, h]
  | fail => simp [cellInt] at h

/-- Reading back a cell just updated at the same key. -/
lemma updCell_same (f : Int → Cell) (i : Int) (c : Cell) : updCell f i c i = c := by
  simp [updCell]

/-- The per-index exhaustion loop is `true` exactly when every index it
visits reads a quota at or above the cap. -/
lemma aekGo_true_iff (st : St) :
    ∀ (rem i : Nat), aekGo st i rem = true ↔
      ∀ j : Nat, j < rem →
        ∃ q, readIntD0 st.hasClient (st.quota ((i + j : Nat) : Int)) = some q ∧
          QUOTA_LIMIT ≤ q := by
  intro rem
  induction rem with
  | zero => intro i; simp [aekGo]
  | succ rem ih =>
    intro i
    unfold aekGo
    cases hr : readIntD0 st.hasClient (st.quota (i : Int)) with
    | none =>
      refine iff_of_false (by simp) ?_
      intro h
      obtain ⟨q, hq, _⟩ := h 0 (Nat.succ_pos rem)
      rw [Nat.add_zero] at hq
      rw [hr] at hq
      exact Option.noConfusion hq
    | some q =>
      by_cases hlt : q < QUOTA_LIMIT
      · simp only [hlt, if_true]
        refine iff_of_false (by simp) ?_
        intro h
        obtain ⟨q', hq', hge⟩ := h 0 (Nat.succ_pos rem)
        rw [Nat.add_zero] at hq'
        rw [hr] at hq'
        cases hq'
        omega
      · simp only [hlt, if_false]
        rw [ih (i + 1)]
        constructor
        · intro h j hj
          cases j with
          | zero => exact ⟨q, by simpa using hr, by omega⟩
          | succ j' =>
            have := h j' (by omega)
            simpa [Nat.add_assoc, Nat.add_comm 1 j'] using this
        · intro h j hj
          have := h (j + 1) (by omega)
          simpa [Nat.add_assoc, Nat.add_comm 1 j] using this

/-- Characterisation of `are_all_keys_exhausted` through the stored values it
actually reads. -/
lemma are_all_keys_exhausted_true_iff (keys : List String) (st : St) :
    are_all_keys_exhausted keys st = true ↔
      ∀ i : Nat, i < keys.length →
        ∃ q, readIntD0 st.hasClient (st.quota (i : Int)) = some q ∧ QUOTA_LIMIT ≤ q := by
  unfold are_all_keys_exhausted
  rw [aekGo_true_iff]
  constructor
  · intro h i hi
    simpa using h i hi
  · intro h j hj
    simpa using h j hj

/-- The retry loop issues at most `fuel` further network calls. -/
lemma dispatchGo_calls_le (keys : List String) (today url : String) (qThr : ℚ)
    (rThr : Int) (resp : Nat → UpResp) :
    ∀ (fuel : Nat) (st : St) (calls : Nat),
      (dispatchGo keys today url qThr rThr resp fuel st calls).2.2 ≤ calls + fuel := by
  intro fuel
  induction fuel with
  | zero => intro st calls; simp [dispatchGo]
  | succ fuel ih =>
    intro st calls
    unfold dispatchGo
    dsimp only
    split
    · simp
    · cases resp calls with
      | ok => simp
      | forbidden reason =>
        dsimp only
        split
        · split
          · simp
          · exact le_trans (ih _ (calls + 1)) (by omega)
        · split
          · exact le_trans (ih _ (calls + 1)) (by omega)
          · simp
      | httpErr status body =>
        dsimp only
        split
        · simp
        · exact le_trans (ih _ (calls + 1)) (by omega)
      | netErr =>
        dsimp only
        split
        · simp
        · exact le_trans (ih _ (calls + 1)) (by omega)

/-! Claim theorems. -/

/-- C2: if `all_exhausted()` is true at entry, `make_youtube_api_request`
fails immediately with the distinct all-credentials-exhausted outcome,
issues zero network calls, and leaves the ledger state unmodified. -/
theorem dispatch_fail_fast_when_exhausted (keys : List String) (today url : String)
    (qThr : ℚ) (rThr : Int) (resp : Nat → UpResp) (st : St)
    (h : are_all_keys_exhausted keys st = true) :
    make_youtube_api_request keys today url qThr rThr resp st
      = (ApiResult.allExhausted, st, 0) := by
  unfold make_youtube_api_request
  rw [h]
  rfl

/-- A concrete ledger state whose single credential is exhausted, used to
instantiate the fail-fast theorem. -/
def exhaustedSt : St :=
  { hasClient := true, currentKeyIndex := Cell.intVal 0,
    quota := fun _ => Cell.intVal 10000,
    requests := fun _ => Cell.intVal 1,
    lastReset := fun _ => Cell.strVal "2025-05-05" }

/-- Witness for C2 at a concrete single-credential exhausted state. -/
theorem dispatch_fail_fast_when_exhausted_witness :
    make_youtube_api_request ["k"] "2025-05-05" "videos" (4 / 5 : ℚ) 1000
        (fun _ => UpResp.ok) exhaustedSt
      = (ApiResult.allExhausted, exhaustedSt, 0) :=
  dispatch_fail_fast_when_exhausted ["k"] "2025-05-05" "videos" (4 / 5 : ℚ) 1000
    (fun _ => UpResp.ok) exhaustedSt (by decide)

/-- C5: every dispatch call issues at most `MAX_RETRIES` network calls (the
retry loop runs at most `MAX_RETRIES` iterations, one network call each); a
call whose budget runs out without a success or exhaustion outcome ends in
the retries-exhausted outcome, which is distinct from the
all-credentials-exhausted outcome. -/
theorem dispatch_terminates_within_budget (keys : List String) (today url : String)
    (qThr : ℚ) (rThr : Int) (resp : Nat → UpResp) (st : St) :
    (make_youtube_api_request keys today url qThr rThr resp st).2.2 ≤ MAX_RETRIES ∧
    (∀ (st2 : St) (calls : Nat),
      dispatchGo keys today url qThr rThr resp 0 st2 calls
        = (ApiResult.retriesExhausted, st2, calls)) ∧
    ApiResult.retriesExhausted ≠ ApiResult.allExhausted := by
  refine ⟨?_, fun st2 calls => rfl, by simp⟩
  unfold make_youtube_api_request
  split
  · simp [MAX_RETRIES]
  · simpa using dispatchGo_calls_le keys today url qThr rThr resp MAX_RETRIES st 0

/-- The spec's description of `all_exhausted()`, stated from its words for
comparison with the implementation: true iff, after applying any pending
daily reset per index as it iterates, every credential's quota is at least
the hard cap under the current date. -/
def all_exhausted_specword (keys : List String) (today : String) (st : St) : Bool :=
  (List.range keys.length).all fun i =>
    decide (QUOTA_LIMIT ≤
      (if is_new_pt_day today (resetArg st (i : Int)) then 0
       else (readIntD0 st.hasClient (st.quota (i : Int))).getD 0))

/-- A ledger state whose single credential has its quota at the cap but a
stale last-reset date: a pending daily reset would zero the quota. -/
def staleExhaustedSt : St :=
  { hasClient := true, currentKeyIndex := Cell.intVal 0,
    quota := fun _ => Cell.intVal 10000,
    requests := fun _ => Cell.intVal 3,
    lastReset := fun _ => Cell.strVal "2025-01-01" }

/-- C1, counterexample: `are_all_keys_exhausted` does not apply pending
daily resets as it iterates.  On a state whose only credential is at the cap
under a stale last-reset date it returns true, while the spec's
reset-checked reading is false on the next day. -/
theorem are_all_keys_exhausted_skips_resets :
    are_all_keys_exhausted ["k"] staleExhaustedSt = true ∧
    all_exhausted_specword ["k"] "2025-01-02" staleExhaustedSt = false := by
  constructor
  · decide
  · decide

/-- C1, amended: `are_all_keys_exhausted` is true iff every credential's
stored quota value reads (with absent keys, unreachable keys and a missing
client defaulting to 0, and non-numeric stored values failing the whole
check) at or above the hard cap; no pending daily reset is applied. -/
theorem are_all_keys_exhausted_characterisation (keys : List String) (st : St) :
    are_all_keys_exhausted keys st = true ↔
      ∀ i : Nat, i < keys.length →
        ∃ q, readIntD0 st.hasClient (st.quota (i : Int)) = some q ∧ QUOTA_LIMIT ≤ q :=
  are_all_keys_exhausted_true_iff keys st

/-- C10: in durable-store mode, a missing client or any unreachable
per-index quota key forces `are_all_keys_exhausted` to return false, so the
dispatcher does not take the all-credentials-exhausted fail-fast exit and
proceeds into its retry loop. -/
theorem store_failure_never_exhausted (keys : List String) (today url : String)
    (qThr : ℚ) (rThr : Int) (resp : Nat → UpResp) (st : St)
    (hkeys : keys ≠ [])
    (hfail : st.hasClient = false ∨
      ∃ i : Nat, i < keys.length ∧ st.quota (i : Int) = Cell.fail) :
    are_all_keys_exhausted keys st = false ∧
    make_youtube_api_request keys today url qThr rThr resp st
      = dispatchGo keys today url qThr rThr resp MAX_RETRIES st 0 := by
  have hlen : 0 < keys.length := List.length_pos.mpr hkeys
  have hzero : ∃ i : Nat, i < keys.length ∧
      readIntD0 st.hasClient (st.quota (i : Int)) = some 0 := by
    rcases hfail with hnc | ⟨i, hi, hq⟩
    · exact ⟨0, hlen, by simp [readIntD0, hnc]⟩
    · refine ⟨i, hi, ?_⟩
      rw [hq]
      unfold readIntD0
      cases st.hasClient <;> simp
  have hfalse : are_all_keys_exhausted keys st = false := by
    rw [Bool.eq_false_iff]
    intro htrue
    obtain ⟨i, hi, hread⟩ := hzero
    obtain ⟨q, hq, hge⟩ := (are_all_keys_exhausted_true_iff keys st).1 htrue i hi
    rw [hread] at hq
    cases hq
    simp [QUOTA_LIMIT] at hge
  refine ⟨hfalse, ?_⟩
  unfold make_youtube_api_request
  rw [hfalse]
  rfl

/-- A ledger state in durable-store mode whose quota keys are all
unreachable. -/
def outageSt : St :=
  { hasClient := true, currentKeyIndex := Cell.intVal 0,
    quota := fun _ => Cell.fail,
    requests := fun _ => Cell.fail,
    lastReset := fun _ => Cell.fail }

/-- Witness for C10 at a concrete store-outage state. -/
theorem store_failure_never_exhausted_witness :
    are_all_keys_exhausted ["k"] outageSt = false ∧
    make_youtube_api_request ["k"] "2025-05-05" "videos" (4 / 5 : ℚ) 1000
        (fun _ => UpResp.ok) outageSt
      = dispatchGo ["k"] "2025-05-05" "videos" (4 / 5 : ℚ) 1000
          (fun _ => UpResp.ok) MAX_RETRIES outageSt 0 :=
  store_failure_never_exhausted ["k"] "2025-05-05" "videos" (4 / 5 : ℚ) 1000
    (fun _ => UpResp.ok) outageSt (by simp)
    (Or.inr ⟨0, by simp, rfl⟩)

/-- Setting a string value on a reachable cell stores it. -/
lemma setStrCell_live {c : Cell} (h : c ≠ Cell.fail) (s : String) :
    setStrCell true c s = Cell.strVal s := by
  cases c with
  | fail => exact absurd rfl h
  | absent => rfl
  | intVal n => rfl
  | strVal t => rfl

/-- Setting an integer value on a reachable cell stores it. -/
lemma setIntCell_live {c : Cell} (h : c ≠ Cell.fail) (n : Int) :
    setIntCell true c n = Cell.intVal n := by
  cases c with
  | fail => exact absurd rfl h
  | absent => rfl
  | intVal m => rfl
  | strVal t => rfl

/-- A well-formed date string equal to the stored one is not a new day. -/
lemma is_new_pt_day_today (today : String) (ht1 : today ≠ "") (ht2 : today ≠ "unknown") :
    is_new_pt_day today (some today) = false := by
  simp [is_new_pt_day, ht1, ht2]

/-- The lazy reset is a no-op when the day has not changed. -/
lemma reset_noop (today : String) (st : St) (i : Int)
    (h : is_new_pt_day today (resetArg st i) = false) :
    reset_quota_if_needed today st i = st := by
  unfold reset_quota_if_needed
  rw [h]
  simp

/-- An unreachable quota cell stays unreachable across the lazy reset. -/
lemma reset_quota_fail (today : String) (st : St) (i : Int)
    (h : st.quota i = Cell.fail) :
    (reset_quota_if_needed today st i).quota i = Cell.fail := by
  unfold reset_quota_if_needed
  split
  · show updCell st.quota i (setIntCell st.hasClient (st.quota i) 0) i = Cell.fail
    rw [updCell_same, h]
    cases st.hasClient <;> rfl
  · exact h

/-- The increment's returned value is the quota INCRBY's result. -/
lemma increment_usage_snd (keys : List String) (today : String) (qThr : ℚ)
    (rThr : Int) (st : St) (i : Int) (cost : Int) :
    (increment_usage keys today qThr rThr st i cost).2
      = (incrbyCell (reset_quota_if_needed today st i).hasClient
          ((reset_quota_if_needed today st i).quota i) cost).2 := by
  unfold increment_usage
  dsimp only
  split <;> rfl

/-- The quota cell at `i` after an increment is the quota INCRBY's cell. -/
lemma increment_usage_fst_quota (keys : List String) (today : String) (qThr : ℚ)
    (rThr : Int) (st : St) (i : Int) (cost : Int) :
    (increment_usage keys today qThr rThr st i cost).1.quota i
      = (incrbyCell (reset_quota_if_needed today st i).hasClient
          ((reset_quota_if_needed today st i).quota i) cost).1 := by
  unfold increment_usage
  dsimp only
  split
  · rw [(rotate_key_fields _ _).1]
    exact updCell_same _ i _
  · exact updCell_same _ i _

/-- The request-count cell at `i` after an increment is the request
INCRBY's cell. -/
lemma increment_usage_fst_requests (keys : List String) (today : String) (qThr : ℚ)
    (rThr : Int) (st : St) (i : Int) (cost : Int) :
    (increment_usage keys today qThr rThr st i cost).1.requests i
      = (incrbyCell (reset_quota_if_needed today st i).hasClient
          ((reset_quota_if_needed today st i).requests i) 1).1 := by
  unfold increment_usage
  dsimp only
  split
  · rw [(rotate_key_fields _ _).2.1]
    exact updCell_same _ i _
  · exact updCell_same _ i _

/-- C7: `increment_usage` first applies any pending daily reset, then
increments the (post-reset) quota by `cost` and the request count by 1, and
returns the post-increment quota; when the backing store fails for the
quota key (or the client is missing), it returns 0 instead of raising. -/
theorem increment_usage_spec (keys : List String) (today : String) (qThr : ℚ)
    (rThr : Int) (st : St) (i : Int) (cost q r : Int)
    (hc : st.hasClient = true)
    (hq : cellInt ((reset_quota_if_needed today st i).quota i) = some q)
    (hr : cellInt ((reset_quota_if_needed today st i).requests i) = some r) :
    (increment_usage keys today qThr rThr st i cost).2 = q + cost ∧
    (increment_usage keys today qThr rThr st i cost).1.quota i
      = Cell.intVal (q + cost) ∧
    (increment_usage keys today qThr rThr st i cost).1.requests i
      = Cell.intVal (r + 1) ∧
    (∀ (st2 : St) (i2 : Int), st2.quota i2 = Cell.fail ∨ st2.hasClient = false →
      (increment_usage keys today qThr rThr st2 i2 cost).2 = 0) := by
  have hc1 : (reset_quota_if_needed today st i).hasClient = true := by
    rw [reset_hasClient]; exact hc
  refine ⟨?_, ?_, ?_, ?_⟩
  · rw [increment_usage_snd, hc1, incrbyCell_of_cellInt hq cost]
  · rw [increment_usage_fst_quota, hc1, incrbyCell_of_cellInt hq cost]
  · rw [increment_usage_fst_requests, hc1, incrbyCell_of_cellInt hr 1]
  · intro st2 i2 h
    rw [increment_usage_snd]
    rcases h with hfq | hnc
    · rw [reset_quota_fail today st2 i2 hfq]
      cases hcc : (reset_quota_if_needed today st2 i2).hasClient <;> rfl
    · have : (reset_quota_if_needed today st2 i2).hasClient = false := by
        rw [reset_hasClient]; exact hnc
      rw [this]
      rfl

/-- A healthy single-credential ledger state on the current day. -/
def liveSt : St :=
  { hasClient := true, currentKeyIndex := Cell.intVal 0,
    quota := fun _ => Cell.intVal 0,
    requests := fun _ => Cell.intVal 0,
    lastReset := fun _ => Cell.strVal "2025-05-05" }

/-- Witness for C7 at a concrete healthy state and cost 100. -/
theorem increment_usage_spec_witness :
    (increment_usage ["k"] "2025-05-05" (4 / 5 : ℚ) 1000 liveSt 0 100).2 = 0 + 100 ∧
    (increment_usage ["k"] "2025-05-05" (4 / 5 : ℚ) 1000 liveSt 0 100).1.quota 0
      = Cell.intVal (0 + 100) ∧
    (increment_usage ["k"] "2025-05-05" (4 / 5 : ℚ) 1000 liveSt 0 100).1.requests 0
      = Cell.intVal (0 + 1) ∧
    (∀ (st2 : St) (i2 : Int), st2.quota i2 = Cell.fail ∨ st2.hasClient = false →
      (increment_usage ["k"] "2025-05-05" (4 / 5 : ℚ) 1000 st2 i2 100).2 = 0) :=
  increment_usage_spec ["k"] "2025-05-05" (4 / 5 : ℚ) 1000 liveSt 0 100 0 0
    rfl (by decide) (by decide)

/-- C9: the lazy reset is idempotent within one date: a second
`_reset_quota_if_needed` on the same date is a no-op, the stored last-reset
date reads as today after any access, and on the first access after a
boundary crossing both counters read exactly 0. -/
theorem maybe_reset_idempotent (st : St) (i : Int) (today : String)
    (hc : st.hasClient = true) (hl : st.lastReset i ≠ Cell.fail)
    (hq : st.quota i ≠ Cell.fail) (hr : st.requests i ≠ Cell.fail)
    (ht1 : today ≠ "") (ht2 : today ≠ "unknown") :
    reset_quota_if_needed today (reset_quota_if_needed today st i) i
      = reset_quota_if_needed today st i ∧
    readStrOpt (reset_quota_if_needed today st i).hasClient
        ((reset_quota_if_needed today st i).lastReset i) = some today ∧
    (is_new_pt_day today (resetArg st i) = true →
      readIntD0 (reset_quota_if_needed today st i).hasClient
          ((reset_quota_if_needed today st i).quota i) = some 0 ∧
      readIntD0 (reset_quota_if_needed today st i).hasClient
          ((reset_quota_if_needed today st i).requests i) = some 0) := by
  have hc1 : (reset_quota_if_needed today st i).hasClient = true := by
    rw [reset_hasClient]; exact hc
  have hdate : readStrOpt (reset_quota_if_needed today st i).hasClient
      ((reset_quota_if_needed today st i).lastReset i) = some today := by
    rw [hc1]
    by_cases hfire : is_new_pt_day today (resetArg st i) = true
    · unfold reset_quota_if_needed
      rw [hfire]
      simp only [if_true]
      show readStrOpt true (updCell st.lastReset i (setStrCell st.hasClient (st.lastReset i) today) i) = some today
      rw [updCell_same, hc, setStrCell_live hl, readStrOpt]
      simp
    · have hfire' : is_new_pt_day today (resetArg st i) = false :=
        Bool.eq_false_iff.mpr hfire
      have hst : reset_quota_if_needed today st i = st := reset_noop today st i hfire'
      rw [hst]
      cases harg : resetArg st i with
      | none => rw [harg] at hfire'; simp [is_new_pt_day] at hfire'
      | some s =>
        have hs : s = today := by
          rw [harg] at hfire'
          by_cases hcase : s = "" ∨ s = "unknown"
          · simp [is_new_pt_day, hcase] at hfire'
          · simp [is_new_pt_day, hcase] at hfire'
            exact hfire'
        unfold resetArg at harg
        rw [hc] at harg
        cases hro : readStrOpt true (st.lastReset i) with
        | none => rw [hro] at harg; simp at harg
        | some t =>
          rw [hro] at harg
          by_cases ht : t = ""
          · simp [ht] at harg
          · simp [ht] at harg
            rw [harg, hs]
  refine ⟨?_, hdate, ?_⟩
  · have harg1 : resetArg (reset_quota_if_needed today st i) i = some today := by
      unfold resetArg
      rw [hdate]
      simp [ht1]
    refine reset_noop today _ i ?_
    rw [harg1]
    exact is_new_pt_day_today today ht1 ht2
  · intro hfire
    rw [hc1]
    unfold reset_quota_if_needed
    rw [hfire]
    simp only [if_true]
    constructor
    · show readIntD0 true
        (updCell st.quota i (setIntCell st.hasClient (st.quota i) 0) i) = some 0
      rw [updCell_same, hc, setIntCell_live hq]
      rfl
    · show readIntD0 true
        (updCell st.requests i (setIntCell st.hasClient (st.requests i) 0) i) = some 0
      rw [updCell_same, hc, setIntCell_live hr]
      rfl

/-- A healthy single-credential state carrying a stale last-reset date. -/
def staleDateSt : St :=
  { hasClient := true, currentKeyIndex := Cell.intVal 0,
    quota := fun _ => Cell.intVal 555,
    requests := fun _ => Cell.intVal 7,
    lastReset := fun _ => Cell.strVal "2025-01-01" }

/-- Witness for C9 at a concrete boundary-crossing state. -/
theorem maybe_reset_idempotent_witness :
    reset_quota_if_needed "2025-01-02" (reset_quota_if_needed "2025-01-02" staleDateSt 0) 0
      = reset_quota_if_needed "2025-01-02" staleDateSt 0 ∧
    readStrOpt (reset_quota_if_needed "2025-01-02" staleDateSt 0).hasClient
        ((reset_quota_if_needed "2025-01-02" staleDateSt 0).lastReset 0) = some "2025-01-02" ∧
    (is_new_pt_day "2025-01-02" (resetArg staleDateSt 0) = true →
      readIntD0 (reset_quota_if_needed "2025-01-02" staleDateSt 0).hasClient
          ((reset_quota_if_needed "2025-01-02" staleDateSt 0).quota 0) = some 0 ∧
      readIntD0 (reset_quota_if_needed "2025-01-02" staleDateSt 0).hasClient
          ((reset_quota_if_needed "2025-01-02" staleDateSt 0).requests 0) = some 0) :=
  maybe_reset_idempotent staleDateSt 0 "2025-01-02" rfl (by decide) (by decide)
    (by decide) (by decide) (by decide)

/-- The client flag is unchanged by an increment. -/
lemma increment_usage_fst_hasClient (keys : List String) (today : String) (qThr : ℚ)
    (rThr : Int) (st : St) (i : Int) (cost : Int) :
    (increment_usage keys today qThr rThr st i cost).1.hasClient = st.hasClient := by
  unfold increment_usage
  dsimp only
  split
  · rw [(rotate_key_fields _ _).2.2.2]
    exact reset_hasClient today st i
  · exact reset_hasClient today st i

/-- The last-reset dates after an increment are those after its reset
check. -/
lemma increment_usage_fst_lastReset (keys : List String) (today : String) (qThr : ℚ)
    (rThr : Int) (st : St) (i : Int) (cost : Int) :
    (increment_usage keys today qThr rThr st i cost).1.lastReset
      = (reset_quota_if_needed today st i).lastReset := by
  unfold increment_usage
  dsimp only
  split
  · rw [(rotate_key_fields _ _).2.2.1]
  · rfl

/-- One increment on a healthy, already-reset entry adds the cost to the
quota and one to the request count and keeps the stored date. -/
lemma increment_step (keys : List String) (today : String) (qThr : ℚ) (rThr : Int)
    (i : Int) (ht1 : today ≠ "") (ht2 : today ≠ "unknown")
    (st : St) (a b c : Int)
    (hc : st.hasClient = true) (hq : st.quota i = Cell.intVal a)
    (hb : st.requests i = Cell.intVal b) (hl : st.lastReset i = Cell.strVal today) :
    (increment_usage keys today qThr rThr st i c).1.hasClient = true ∧
    (increment_usage keys today qThr rThr st i c).1.quota i = Cell.intVal (a + c) ∧
    (increment_usage keys today qThr rThr st i c).1.requests i = Cell.intVal (b + 1) ∧
    (increment_usage keys today qThr rThr st i c).1.lastReset i = Cell.strVal today := by
  have hnoop : reset_quota_if_needed today st i = st := by
    apply reset_noop
    have ha : resetArg st i = some today := by
      unfold resetArg
      rw [hc, hl]
      simp [readStrOpt, ht1]
    rw [ha]
    exact is_new_pt_day_today today ht1 ht2
  refine ⟨?_, ?_, ?_, ?_⟩
  · rw [increment_usage_fst_hasClient]; exact hc
  · rw [increment_usage_fst_quota, hnoop, hc, hq]; rfl
  · rw [increment_usage_fst_requests, hnoop, hc, hb]; rfl
  · rw [increment_usage_fst_lastReset, hnoop]; exact hl

/-- A sequence of `increment_usage` calls against index `i`, one per cost. -/
def foldInc (keys : List String) (today : String) (qThr : ℚ) (rThr : Int)
    (i : Int) (st : St) (costs : List Int) : St :=
  costs.foldl (fun s c => (increment_usage keys today qThr rThr s i c).1) st

/-- Running a cost sequence from a healthy entry accumulates the exact sums. -/
lemma foldInc_spec (keys : List String) (today : String) (qThr : ℚ) (rThr : Int)
    (i : Int) (ht1 : today ≠ "") (ht2 : today ≠ "unknown") :
    ∀ (costs : List Int) (st : St) (a b : Int),
      st.hasClient = true → st.quota i = Cell.intVal a →
      st.requests i = Cell.intVal b → st.lastReset i = Cell.strVal today →
      (foldInc keys today qThr rThr i st costs).hasClient = true ∧
      (foldInc keys today qThr rThr i st costs).quota i
        = Cell.intVal (a + costs.sum) ∧
      (foldInc keys today qThr rThr i st costs).requests i
        = Cell.intVal (b + costs.length) ∧
      (foldInc keys today qThr rThr i st costs).lastReset i
        = Cell.strVal today := by
  intro costs
  induction costs with
  | nil =>
    intro st a b hc hq hb hl
    refine ⟨hc, ?_, ?_, hl⟩
    · simpa using hq
    · simpa using hb
  | cons c cs ih =>
    intro st a b hc hq hb hl
    obtain ⟨h1, h2, h3, h4⟩ :=
      increment_step keys today qThr rThr i ht1 ht2 st a b c hc hq hb hl
    have hfold : foldInc keys today qThr rThr i st (c :: cs)
        = foldInc keys today qThr rThr i ((increment_usage keys today qThr rThr st i c).1) cs := rfl
    obtain ⟨g1, g2, g3, g4⟩ :=
      ih ((increment_usage keys today qThr rThr st i c).1) (a + c) (b + 1) h1 h2 h3 h4
    rw [hfold]
    refine ⟨g1, ?_, ?_, g4⟩
    · rw [g2]
      congr 1
      rw [List.sum_cons]
      ring
    · rw [g3]
      congr 1
      rw [List.length_cons]
      push_cast
      ring

/-- Prefix sums of a list of non-negative values are monotone. -/
lemma sum_take_mono : ∀ (l : List Int), (∀ c ∈ l, 0 ≤ c) →
    ∀ m n : Nat, m ≤ n → (l.take m).sum ≤ (l.take n).sum := by
  intro l
  induction l with
  | nil => intro _ m n _; simp
  | cons c cs ih =>
    intro hpos m n hmn
    cases m with
    | zero =>
      simp only [List.take_zero, List.sum_nil]
      apply List.sum_nonneg
      intro x hx
      exact hpos x (List.take_subset n _ hx)
    | succ m' =>
      cases n with
      | zero => omega
      | succ n' =>
        simp only [List.take_succ_cons, List.sum_cons]
        have := ih (fun x hx => hpos x (List.mem_cons_of_mem c hx)) m' n' (by omega)
        omega

/-- C8: within one day (the stored date already equals today, so no reset
boundary is crossed), a sequence of `increment_usage(i, cost)` calls leaves
`quota_used[i]` equal to the sum of the costs applied and `request_count[i]`
equal to their number, and both counters are monotonically non-decreasing
along the sequence. -/
theorem increment_monotonic_within_day (keys : List String) (today : String)
    (qThr : ℚ) (rThr : Int) (i : Int) (costs : List Int) (st : St)
    (hc : st.hasClient = true) (hq : st.quota i = Cell.intVal 0)
    (hb : st.requests i = Cell.intVal 0) (hl : st.lastReset i = Cell.strVal today)
    (ht1 : today ≠ "") (ht2 : today ≠ "unknown")
    (hpos : ∀ c ∈ costs, 0 ≤ c) :
    (∀ n : Nat,
      (foldInc keys today qThr rThr i st (costs.take n)).quota i
        = Cell.intVal ((costs.take n).sum) ∧
      (foldInc keys today qThr rThr i st (costs.take n)).requests i
        = Cell.intVal ((costs.take n).length)) ∧
    (∀ m n : Nat, m ≤ n →
      (cellInt ((foldInc keys today qThr rThr i st (costs.take m)).quota i)).getD 0
        ≤ (cellInt ((foldInc keys today qThr rThr i st (costs.take n)).quota i)).getD 0 ∧
      (cellInt ((foldInc keys today qThr rThr i st (costs.take m)).requests i)).getD 0
        ≤ (cellInt ((foldInc keys today qThr rThr i st (costs.take n)).requests i)).getD 0) := by
  have hpart : ∀ n : Nat,
      (foldInc keys today qThr rThr i st (costs.take n)).quota i
        = Cell.intVal ((costs.take n).sum) ∧
      (foldInc keys today qThr rThr i st (costs.take n)).requests i
        = Cell.intVal ((costs.take n).length) := by
    intro n
    obtain ⟨_, h2, h3, _⟩ := foldInc_spec keys today qThr rThr i ht1 ht2
      (costs.take n) st 0 0 hc hq hb hl
    rw [h2, h3]
    constructor <;> (congr 1; ring)
  refine ⟨hpart, ?_⟩
  intro m n hmn
  rw [(hpart m).1, (hpart m).2, (hpart n).1, (hpart n).2]
  simp only [cellInt, Option.getD_some]
  constructor
  · exact sum_take_mono costs hpos m n hmn
  · have : (costs.take m).length ≤ (costs.take n).length := by
      simp only [List.length_take]
      omega
    exact_mod_cast this

/-- Witness for C8 with two concrete costs on a healthy current-day state. -/
theorem increment_monotonic_within_day_witness :
    (∀ n : Nat,
      (foldInc ["k"] "2025-05-05" (4 / 5 : ℚ) 1000 0 liveSt (([100, 1] : List Int).take n)).quota 0
        = Cell.intVal ((([100, 1] : List Int).take n).sum) ∧
      (foldInc ["k"] "2025-05-05" (4 / 5 : ℚ) 1000 0 liveSt (([100, 1] : List Int).take n)).requests 0
        = Cell.intVal ((([100, 1] : List Int).take n).length)) ∧
    (∀ m n : Nat, m ≤ n →
      (cellInt ((foldInc ["k"] "2025-05-05" (4 / 5 : ℚ) 1000 0 liveSt (([100, 1] : List Int).take m)).quota 0)).getD 0
        ≤ (cellInt ((foldInc ["k"] "2025-05-05" (4 / 5 : ℚ) 1000 0 liveSt (([100, 1] : List Int).take n)).quota 0)).getD 0 ∧
      (cellInt ((foldInc ["k"] "2025-05-05" (4 / 5 : ℚ) 1000 0 liveSt (([100, 1] : List Int).take m)).requests 0)).getD 0
        ≤ (cellInt ((foldInc ["k"] "2025-05-05" (4 / 5 : ℚ) 1000 0 liveSt (([100, 1] : List Int).take n)).requests 0)).getD 0) :=
  increment_monotonic_within_day ["k"] "2025-05-05" (4 / 5 : ℚ) 1000 0 ([100, 1] : List Int) liveSt
    rfl rfl rfl rfl (by decide) (by decide) (by decide)

/-- The quota value `rotate_key` and `are_all_keys_exhausted` read at an
index (their shared default 0 applied). -/
def qval (st : St) (j : Int) : Int :=
  (readIntD0 st.hasClient (st.quota j)).getD 0

/-- A readable quota reads as its `qval`. -/
lemma readIntD0_eq_qval {st : St} {j : Int}
    (h : readIntD0 st.hasClient (st.quota j) ≠ none) :
    readIntD0 st.hasClient (st.quota j) = some (qval st j) := by
  cases hr : readIntD0 st.hasClient (st.quota j) with
  | none => exact absurd hr h
  | some q => simp [qval, hr]

/-- The circular scan stays defined on readable quotas and lands in
`[0, n)`. -/
lemma rotateScan_isSome (st : St) (n : Int) (hn : 0 < n)
    (hwf : ∀ j : Int, 0 ≤ j → j < n → readIntD0 st.hasClient (st.quota j) ≠ none) :
    ∀ (rem : Nat) (next : Int), 0 ≤ next → next < n →
      ∃ nxt, rotateScan st n next rem = some nxt ∧ 0 ≤ nxt ∧ nxt < n := by
  intro rem
  induction rem with
  | zero => intro next h1 h2; exact ⟨next, rfl, h1, h2⟩
  | succ rem ih =>
    intro next h1 h2
    unfold rotateScan
    rw [readIntD0_eq_qval (hwf next h1 h2)]
    by_cases hq : qval st next < QUOTA_LIMIT
    · exact ⟨next, by simp [hq], h1, h2⟩
    · obtain ⟨nxt, hrot, hb1, hb2⟩ :=
        ih ((next + 1) % n) (Int.emod_nonneg _ (by omega)) (Int.emod_lt_of_pos _ hn)
      exact ⟨nxt, by simp [hq, hrot], hb1, hb2⟩

/-- When every index is at the cap, the scan walks all the way around. -/
lemma rotateScan_all_exhausted (st : St) (n : Int) (hn : 0 < n)
    (hwf : ∀ j : Int, 0 ≤ j → j < n → readIntD0 st.hasClient (st.quota j) ≠ none)
    (hex : ∀ j : Int, 0 ≤ j → j < n → QUOTA_LIMIT ≤ qval st j) :
    ∀ (rem : Nat) (next : Int), 0 ≤ next → next < n →
      rotateScan st n next rem = some ((next + rem) % n) := by
  intro rem
  induction rem with
  | zero =>
    intro next h1 h2
    show some next = some ((next + ((0 : Nat) : Int)) % n)
    rw [Nat.cast_zero, add_zero, Int.emod_eq_of_lt h1 h2]
  | succ rem ih =>
    intro next h1 h2
    unfold rotateScan
    rw [readIntD0_eq_qval (hwf next h1 h2)]
    have hge := hex next h1 h2
    have hq : ¬ qval st next < QUOTA_LIMIT := by omega
    simp only [hq, if_false]
    rw [ih ((next + 1) % n) (Int.emod_nonneg _ (by omega)) (Int.emod_lt_of_pos _ hn)]
    congr 1
    rw [Int.emod_add_emod]
    push_cast
    ring_nf

/-- When some index below the cap is within reach, the scan stops at an
index below the cap. -/
lemma rotateScan_finds (st : St) (n : Int) (hn : 0 < n)
    (hwf : ∀ j : Int, 0 ≤ j → j < n → readIntD0 st.hasClient (st.quota j) ≠ none) :
    ∀ (rem : Nat) (next : Int), 0 ≤ next → next < n →
      (∃ j : Nat, j < rem ∧ qval st ((next + (j : Int)) % n) < QUOTA_LIMIT) →
      ∃ nxt, rotateScan st n next rem = some nxt ∧ qval st nxt < QUOTA_LIMIT := by
  intro rem
  induction rem with
  | zero =>
    intro next _ _ h
    obtain ⟨j, hj, _⟩ := h
    omega
  | succ rem ih =>
    intro next h1 h2 h
    obtain ⟨j, hj, hjlt⟩ := h
    unfold rotateScan
    rw [readIntD0_eq_qval (hwf next h1 h2)]
    by_cases hq : qval st next < QUOTA_LIMIT
    · exact ⟨next, by simp [hq], hq⟩
    · simp only [hq, if_false]
      apply ih ((next + 1) % n) (Int.emod_nonneg _ (by omega)) (Int.emod_lt_of_pos _ hn)
      cases j with
      | zero =>
        exfalso
        rw [Nat.cast_zero, add_zero, Int.emod_eq_of_lt h1 h2] at hjlt
        exact hq hjlt
      | succ j' =>
        refine ⟨j', by omega, ?_⟩
        have hpos : ((next + 1) % n + (j' : Int)) % n
            = (next + ((Nat.succ j' : Nat) : Int)) % n := by
          rw [Int.emod_add_emod]
          push_cast
          ring_nf
        rw [hpos]
        exact hjlt

/-- C6: `rotate_key` never selects an index whose quota is at the cap while
some index below the cap exists; when every index is at the cap it still
advances the active index to `(current_index + 1) mod N`; in both cases the
selected index is written back to the store. -/
theorem rotate_key_spec (keys : List String) (st : St) (cur : Int)
    (hkeys : keys ≠ [])
    (hc : st.hasClient = true)
    (hcell : st.currentKeyIndex ≠ Cell.fail)
    (hcur : readIntD0 st.hasClient st.currentKeyIndex = some cur)
    (hwf : ∀ j : Int, 0 ≤ j → j < (keys.length : Int) →
      readIntD0 st.hasClient (st.quota j) ≠ none) :
    ((∃ j : Int, 0 ≤ j ∧ j < (keys.length : Int) ∧ qval st j < QUOTA_LIMIT) →
      qval st (rotate_key keys st).2 < QUOTA_LIMIT) ∧
    ((∀ j : Int, 0 ≤ j → j < (keys.length : Int) → QUOTA_LIMIT ≤ qval st j) →
      (rotate_key keys st).2 = (cur + 1) % (keys.length : Int)) ∧
    (rotate_key keys st).1.currentKeyIndex = Cell.intVal (rotate_key keys st).2 := by
  have hn : (0 : Int) < (keys.length : Int) := by
    have := List.length_pos.mpr hkeys
    exact_mod_cast this
  have hb0 : 0 ≤ (cur + 1) % (keys.length : Int) := Int.emod_nonneg _ (by omega)
  have hb1 : (cur + 1) % (keys.length : Int) < (keys.length : Int) :=
    Int.emod_lt_of_pos _ hn
  obtain ⟨nxt, hscan, hge0, hlt⟩ := rotateScan_isSome st (keys.length : Int) hn hwf
    keys.length ((cur + 1) % (keys.length : Int)) hb0 hb1
  have hrw : rotate_key keys st
      = ({ st with currentKeyIndex := setIntCell st.hasClient st.currentKeyIndex nxt },
          nxt) := by
    unfold rotate_key
    rw [hcur]
    dsimp only
    rw [hscan]
  refine ⟨?_, ?_, ?_⟩
  · rintro ⟨j, hj0, hjlt, hjq⟩
    have hdnn : 0 ≤ (j - (cur + 1) % (keys.length : Int)) % (keys.length : Int) :=
      Int.emod_nonneg _ (by omega)
    have hdlt : (j - (cur + 1) % (keys.length : Int)) % (keys.length : Int)
        < (keys.length : Int) := Int.emod_lt_of_pos _ hn
    have hdnat : (((j - (cur + 1) % (keys.length : Int)) % (keys.length : Int)).toNat : Int)
        = (j - (cur + 1) % (keys.length : Int)) % (keys.length : Int) :=
      Int.toNat_of_nonneg hdnn
    have hhit : ((cur + 1) % (keys.length : Int)
        + (j - (cur + 1) % (keys.length : Int)) % (keys.length : Int))
          % (keys.length : Int) = j := by
      rw [Int.emod_def (j - (cur + 1) % (keys.length : Int)) (keys.length : Int)]
      have harith : (cur + 1) % (keys.length : Int)
          + (j - (cur + 1) % (keys.length : Int)
            - (keys.length : Int) * ((j - (cur + 1) % (keys.length : Int)) / (keys.length : Int)))
          = j + (keys.length : Int)
            * (-((j - (cur + 1) % (keys.length : Int)) / (keys.length : Int))) := by
        ring
      rw [harith, Int.add_mul_emod_self_left, Int.emod_eq_of_lt hj0 hjlt]
    obtain ⟨nxt', hscan', hq'⟩ := rotateScan_finds st (keys.length : Int) hn hwf
      keys.length ((cur + 1) % (keys.length : Int)) hb0 hb1
      ⟨((j - (cur + 1) % (keys.length : Int)) % (keys.length : Int)).toNat,
        by omega, by rw [hdnat, hhit]; exact hjq⟩
    rw [hscan'] at hscan
    cases hscan
    rw [hrw]
    exact hq'
  · intro hex
    have hall := rotateScan_all_exhausted st (keys.length : Int) hn hwf hex
      keys.length ((cur + 1) % (keys.length : Int)) hb0 hb1
    rw [hall] at hscan
    cases hscan
    rw [hrw]
    show ((cur + 1) % (keys.length : Int) + (keys.length : Int)) % (keys.length : Int)
      = (cur + 1) % (keys.length : Int)
    rw [Int.emod_add_emod]
    have : cur + 1 + (keys.length : Int) = (cur + 1) + (keys.length : Int) * 1 := by ring
    rw [this, Int.add_mul_emod_self_left]
  · rw [hrw]
    dsimp only
    rw [hc]
    exact setIntCell_live hcell nxt

/-- A two-credential state whose active credential 0 is exhausted while
credential 1 has quota left. -/
def rotSt : St :=
  { hasClient := true, currentKeyIndex := Cell.intVal 0,
    quota := fun j => if j = 1 then Cell.intVal 0 else Cell.intVal 10000,
    requests := fun _ => Cell.intVal 0,
    lastReset := fun _ => Cell.strVal "2025-05-05" }

/-- Witness for C6 at a concrete two-credential state. -/
theorem rotate_key_spec_witness :
    ((∃ j : Int, 0 ≤ j ∧ j < ((["a", "b"].length : Nat) : Int) ∧
        qval rotSt j < QUOTA_LIMIT) →
      qval rotSt (rotate_key ["a", "b"] rotSt).2 < QUOTA_LIMIT) ∧
    ((∀ j : Int, 0 ≤ j → j < ((["a", "b"].length : Nat) : Int) →
        QUOTA_LIMIT ≤ qval rotSt j) →
      (rotate_key ["a", "b"] rotSt).2 = (0 + 1) % ((["a", "b"].length : Nat) : Int)) ∧
    (rotate_key ["a", "b"] rotSt).1.currentKeyIndex
      = Cell.intVal (rotate_key ["a", "b"] rotSt).2 :=
  rotate_key_spec ["a", "b"] rotSt 0 (by simp) rfl (by decide) rfl
    (by
      intro j h1 h2
      by_cases hj : j = 1 <;> simp [rotSt, readIntD0, hj])

/-- The retry loop's outcome depends only on the upstream outcomes from the
current call count onwards. -/
lemma dispatchGo_congr (keys : List String) (today url : String) (qThr : ℚ)
    (rThr : Int) :
    ∀ (fuel : Nat) (st : St) (calls : Nat) (r1 r2 : Nat → UpResp),
      (∀ m, calls ≤ m → r1 m = r2 m) →
      dispatchGo keys today url qThr rThr r1 fuel st calls
        = dispatchGo keys today url qThr rThr r2 fuel st calls := by
  intro fuel
  induction fuel with
  | zero => intro st calls r1 r2 h; rfl
  | succ fuel ih =>
    intro st calls r1 r2 h
    have hrec : ∀ st2 : St,
        dispatchGo keys today url qThr rThr r1 fuel st2 (calls + 1)
          = dispatchGo keys today url qThr rThr r2 fuel st2 (calls + 1) :=
      fun st2 => ih st2 (calls + 1) r1 r2 (fun m hm => h m (by omega))
    unfold dispatchGo
    rw [h calls (Nat.le_refl calls)]
    dsimp only
    split
    · rfl
    · split
      · rfl
      · split
        · split
          · rfl
          · exact hrec _
        · split
          · exact hrec _
          · rfl
      · split
        · rfl
        · exact hrec _
      · split
        · rfl
        · exact hrec _

/-- C3, amended: a 403 whose reason is invalid-credential or
access-not-configured marks the current credential exhausted and advances
the active index exactly as the quota-exceeded branch does, and the call is
retried with the next retry budget; the two branches behave identically
provided that marking does not leave every credential exhausted (the
invalid-credential branch skips the all-exhausted re-check the
quota-exceeded branch performs). -/
theorem invalid_key_handled_like_quota (keys : List String) (today url : String)
    (qThr : ℚ) (rThr : Int) (r1 r2 : Nat → UpResp) (st : St) (fuel calls : Nat)
    (reasonI reasonQ : String)
    (h1 : r1 calls = UpResp.forbidden reasonI)
    (h2 : r2 calls = UpResp.forbidden reasonQ)
    (hIq : strHas reasonI "quotaExceeded" = false)
    (hId : strHas reasonI "dailyLimitExceeded" = false)
    (hIk : strHas reasonI "keyInvalid" = true ∨
      strHas reasonI "accessNotConfigured" = true)
    (hQ : strHas reasonQ "quotaExceeded" = true ∨
      strHas reasonQ "dailyLimitExceeded" = true)
    (hAgree : ∀ m, m ≠ calls → r1 m = r2 m)
    (hkey : (get_current_api_key keys today st).2.1 ≠ "")
    (hNE : are_all_keys_exhausted keys
      (mark_key_quota_exceeded keys (get_current_api_key keys today st).1
        (get_current_api_key keys today st).2.2).1 = false) :
    dispatchGo keys today url qThr rThr r1 (fuel + 1) st calls
      = dispatchGo keys today url qThr rThr r2 (fuel + 1) st calls ∧
    dispatchGo keys today url qThr rThr r1 (fuel + 1) st calls
      = dispatchGo keys today url qThr rThr r1 fuel
          (mark_key_quota_exceeded keys (get_current_api_key keys today st).1
            (get_current_api_key keys today st).2.2).1 (calls + 1) := by
  have hIor : (strHas reasonI "quotaExceeded" || strHas reasonI "dailyLimitExceeded")
      = false := by rw [hIq, hId]; rfl
  have hIother : (strHas reasonI "keyInvalid" || strHas reasonI "accessNotConfigured")
      = true := by rcases hIk with h | h <;> simp [h]
  have hQor : (strHas reasonQ "quotaExceeded" || strHas reasonQ "dailyLimitExceeded")
      = true := by rcases hQ with h | h <;> simp [h]
  have hL : dispatchGo keys today url qThr rThr r1 (fuel + 1) st calls
      = dispatchGo keys today url qThr rThr r1 fuel
          (mark_key_quota_exceeded keys (get_current_api_key keys today st).1
            (get_current_api_key keys today st).2.2).1 (calls + 1) := by
    conv_lhs => rw [dispatchGo]
    dsimp only
    rw [if_neg hkey, h1]
    dsimp only
    rw [if_neg (by rw [hIor]; exact Bool.false_ne_true), if_pos hIother]
  have hR : dispatchGo keys today url qThr rThr r2 (fuel + 1) st calls
      = dispatchGo keys today url qThr rThr r2 fuel
          (mark_key_quota_exceeded keys (get_current_api_key keys today st).1
            (get_current_api_key keys today st).2.2).1 (calls + 1) := by
    conv_lhs => rw [dispatchGo]
    dsimp only
    rw [if_neg hkey, h2]
    dsimp only
    rw [if_pos hQor, if_neg (by rw [hNE]; exact Bool.false_ne_true)]
  refine ⟨?_, hL⟩
  rw [hL, hR]
  exact dispatchGo_congr keys today url qThr rThr fuel _ (calls + 1) r1 r2
    (fun m hm => hAgree m (by omega))

/-- Upstream answers every call with a quota-exceeded 403. -/
def respQuota : Nat → UpResp := fun _ => UpResp.forbidden "quotaExceeded"

/-- Upstream answers every call with an invalid-key 403. -/
def respInvalid : Nat → UpResp := fun _ => UpResp.forbidden "keyInvalid"

/-- C3, counterexample: with a single credential the two 403 reasons are not
handled identically: a quota-exceeded reason fails fast with the exhaustion
outcome after one network call, while an invalid-key reason keeps retrying
the now-exhausted credential until the retry budget is consumed. -/
theorem forbidden_handling_differs :
    (make_youtube_api_request ["k"] "2025-05-05" "videos" (4 / 5 : ℚ) 1000
        respQuota liveSt).1 = ApiResult.allExhausted ∧
    (make_youtube_api_request ["k"] "2025-05-05" "videos" (4 / 5 : ℚ) 1000
        respQuota liveSt).2.2 = 1 ∧
    (make_youtube_api_request ["k"] "2025-05-05" "videos" (4 / 5 : ℚ) 1000
        respInvalid liveSt).1 = ApiResult.retriesExhausted ∧
    (make_youtube_api_request ["k"] "2025-05-05" "videos" (4 / 5 : ℚ) 1000
        respInvalid liveSt).2.2 = 3 := by
  refine ⟨?_, ?_, ?_, ?_⟩ <;> decide

/-- First call answers invalid-key, later calls succeed. -/
def respInvalidThenOk : Nat → UpResp :=
  fun m => if m = 0 then UpResp.forbidden "keyInvalid" else UpResp.ok

/-- First call answers quota-exceeded, later calls succeed. -/
def respQuotaThenOk : Nat → UpResp :=
  fun m => if m = 0 then UpResp.forbidden "quotaExceeded" else UpResp.ok

/-- Witness for the amended C3 at a concrete two-credential state. -/
theorem invalid_key_handled_like_quota_witness :
    dispatchGo ["a", "b"] "2025-05-05" "videos" (4 / 5 : ℚ) 1000 respInvalidThenOk
        (2 + 1) rotSt 0
      = dispatchGo ["a", "b"] "2025-05-05" "videos" (4 / 5 : ℚ) 1000 respQuotaThenOk
          (2 + 1) rotSt 0 ∧
    dispatchGo ["a", "b"] "2025-05-05" "videos" (4 / 5 : ℚ) 1000 respInvalidThenOk
        (2 + 1) rotSt 0
      = dispatchGo ["a", "b"] "2025-05-05" "videos" (4 / 5 : ℚ) 1000 respInvalidThenOk
          2 (mark_key_quota_exceeded ["a", "b"]
              (get_current_api_key ["a", "b"] "2025-05-05" rotSt).1
              (get_current_api_key ["a", "b"] "2025-05-05" rotSt).2.2).1 (0 + 1) :=
  invalid_key_handled_like_quota ["a", "b"] "2025-05-05" "videos" (4 / 5 : ℚ) 1000
    respInvalidThenOk respQuotaThenOk rotSt 2 0 "keyInvalid" "quotaExceeded"
    rfl rfl (by decide) (by decide) (Or.inl (by decide)) (Or.inl (by decide))
    (by
      intro m hm
      simp [respInvalidThenOk, respQuotaThenOk, hm])
    (by decide) (by decide)

/-- A ledger state whose stored active index was corrupted to "-1". -/
def corruptIdxSt : St :=
  { hasClient := true, currentKeyIndex := Cell.strVal "-1",
    quota := fun _ => Cell.intVal 0,
    requests := fun _ => Cell.intVal 0,
    lastReset := fun j => if j = 0 then Cell.strVal "2025-05-05" else Cell.absent }

/-- C4, failing input: a stored active index of "-1" passes the
`index >= len(API_KEYS)` bounds check unrepaired, runs the reset check
against ledger keys at index -1 (creating a ghost last-reset entry there),
and is returned as index -1 — outside `[0, N)` — with the credential
selected through Python negative indexing. -/
theorem negative_stored_index_escapes_repair :
    (get_current_api_key ["keyA"] "2025-05-05" corruptIdxSt).2.2 = -1 ∧
    (get_current_api_key ["keyA"] "2025-05-05" corruptIdxSt).2.1 = "keyA" ∧
    (get_current_api_key ["keyA"] "2025-05-05" corruptIdxSt).1.currentKeyIndex
      = Cell.strVal "-1" ∧
    (get_current_api_key ["keyA"] "2025-05-05" corruptIdxSt).1.lastReset (-1)
      = Cell.strVal "2025-05-05" := by
  refine ⟨?_, ?_, ?_, ?_⟩ <;> decide

end YTQ
